import Mathlib

/-!
Verification of the Strapi → Stackbit content-source mapping engine.

This file gives a shallow embedding, in Lean, of the mapping functions of
`src/strapi-source-utils.ts` and the id codec of `src/strapi-content-source.ts`
(the file exporting `ID_SEPARATOR` and `StrapiContentSource.updateDocument`),
and proves or refutes the specified properties of that code.

Embedding conventions:
* JavaScript strings are `List Char` (`Str` below); JavaScript runtime values
  reachable by the mapper are the inductive `JValue` (with both `null` and
  `undefined`, which the source distinguishes via `!==` and truthiness tests).
* Functions that can throw at runtime (a `throw` statement, or a `TypeError`
  from dereferencing `undefined`) are embedded in `Except String`.
* The host cache (`stackbitCache` from `@stackbit/types`, external to the
  repository) is passed explicitly; per the spec it is a model store keyed by
  the normalized model name, looked up with `getModelByName`.
* The recursive document-field mapper takes an explicit `fuel` bound on the
  recursion depth; the JavaScript recursion is bounded by the actual nesting
  of the document value, so every real run corresponds to a sufficiently
  large fuel.
-/

namespace StrapiSource

/-- JavaScript strings, embedded as character lists. -/
abbrev Str := List Char

/-- JavaScript runtime values reachable by the mapping code. -/
inductive JValue where
  | null
  | undefined
  | bool (b : Bool)
  | num (n : Int)
  | str (s : Str)
  | arr (elems : List JValue)
  | obj (fields : List (Str × JValue))

/-- JavaScript truthiness (`v ?`): `null`, `undefined`, `false`, `0` and the
empty string are falsy; every object and array is truthy. -/
def jTruthy : JValue → Bool
  | .null => false
  | .undefined => false
  | .bool b => b
  | .num n => n != 0
  | .str s => s != []
  | .arr _ => true
  | .obj _ => true

/-- Strict-equality test against `null` (`value !== null` in the source);
note that `undefined !== null` holds in JavaScript. -/
def jIsNull : JValue → Bool
  | .null => true
  | _ => false

/-- Property read `v[k]` in a context where `v` was already checked truthy
(so it is not `null`/`undefined`): a missing key reads as `undefined`, and a
read from a non-object primitive is also `undefined`. -/
def jGetD : JValue → Str → JValue
  | .obj fields, k => (fields.findSome? (fun p => if p.1 = k then some p.2 else none)).getD .undefined
  | _, _ => .undefined

/-- Property read `v[k]` where `v` may be anything: reading a property of
`null` or `undefined` throws a `TypeError`. -/
def jGetE : JValue → Str → Except String JValue
  | .null, _ => .error "TypeError: cannot read properties of null"
  | .undefined, _ => .error "TypeError: cannot read properties of undefined"
  | v, k => .ok (jGetD v k)

/-- Embedding of `Object.entries(v)`: the own enumerable entries of `v`. Throws on
`null`/`undefined`. Primitives have no own enumerable string-keyed entries
relevant here (arrays and strings expose index-keyed entries, which can never
match a declared model-field name, so they behave as the empty entry list in
every field join performed by the mapper). -/
def jEntries : JValue → Except String (List (Str × JValue))
  | .null => .error "TypeError: Object.entries called on null"
  | .undefined => .error "TypeError: Object.entries called on undefined"
  | .obj fields => .ok fields
  | _ => .ok []

/-- Decimal digits of a natural number, structurally recursive on a fuel
argument (the number itself bounds the digit count). -/
def natDigits : Nat → Nat → Str
  | 0, _ => []
  | _, 0 => []
  | fuel+1, n => natDigits fuel (n / 10) ++ [Nat.digitChar (n % 10)]

/-- Decimal rendering of a natural number. -/
def natToStr (n : Nat) : Str :=
  if n = 0 then ['0'] else natDigits n n

/-- Decimal rendering of an integer (JavaScript number-to-string for the
integral values appearing as Strapi ids). -/
def intToStr (n : Int) : Str :=
  if n < 0 then '-' :: natToStr n.natAbs else natToStr n.natAbs

/-- Template-literal rendering `${v}` of the values interpolated by the
mapper (model names and document/element ids). Nested arrays inside an
array are not rendered faithfully (JavaScript flattens them recursively);
no id value in scope is an array of arrays. -/
def jToStr : JValue → Str
  | .null => "null".toList
  | .undefined => "undefined".toList
  | .bool b => if b then "true".toList else "false".toList
  | .num n => intToStr n
  | .str s => s
  | .obj _ => "[object Object]".toList
  | .arr elems =>
      List.intercalate [','] (elems.map (fun e => match e with
        | .null => []
        | .undefined => []
        | .bool b => if b then "true".toList else "false".toList
        | .num n => intToStr n
        | .str s => s
        | .obj _ => "[object Object]".toList
        | .arr _ => ([] : Str)))

/-- The separator `ID_SEPARATOR` from `strapi-content-source.ts`: the backtick string
containing the single hash character. -/
def idSeparator : Char := '#'

/-- Embedding of `String.prototype.split` with a one-character separator: splits on every
occurrence; `splitSep sep ""` is `[""]`, as in JavaScript. -/
def splitSep (sep : Char) : Str → List Str
  | [] => [[]]
  | c :: cs =>
    if c = sep then [] :: splitSep sep cs
    else
      match splitSep sep cs with
      | [] => [[c]]
      | p :: ps => (c :: p) :: ps

/-- Hyphen-to-underscore normalization: `s.replace` of the global hyphen
regex with an underscore, used for every model name derived from an `apiID`,
a relation `target` or a component uid. -/
def normalizeName (s : Str) : Str :=
  s.map (fun c => if c = '-' then '_' else c)

/-- Composite-document-id encoding (line 141 of `strapi-source-utils.ts`):
plain delimited concatenation of the normalized model name and the source id. -/
def encodeDocumentId (modelName : Str) (sourceId : Str) : Str :=
  modelName ++ [idSeparator] ++ sourceId

/-- Composite-document-id decoding (`StrapiContentSource.updateDocument`,
`const [contentType, id] = options.document.id.split(ID_SEPARATOR)`): split on
the separator and destructure the first two parts; a missing part reads as
`undefined`, embedded as `none`. -/
def decodeDocumentId (compositeId : Str) : Option Str × Option Str :=
  let parts := splitSep idSeparator compositeId
  (parts.get? 0, parts.get? 1)

/-! ## Source schema (Strapi content types, components, attributes) -/

/-- The scalar attribute tags handled by the scalar group of the `switch` in
`toStackbitModels` (lines 68 to 76 of `strapi-source-utils.ts`). -/
inductive ScalarAttrType where
  | boolean
  | integer
  | float
  | string
  | datetime
  | json
  | text
  | richtext
  | enumeration
deriving DecidableEq

/-- One entry of a content type's attribute map, tagged by its `type`
(spec section 3: the tag fully determines which shape is populated).
`other` covers every tag outside the known vocabulary (the `default`
branch of the classifier). -/
inductive StrapiAttribute where
  | scalar (type : ScalarAttrType) (required : Option Bool) (default : JValue)
  | relation (relation : Str) (target : Str)
  | component (component : Str) (repeatable : Bool)
  | media
  | other (type : Str)

/-- A Strapi content type or component as consumed by `toStackbitModels`:
`uid`, `apiID`, `options.draftAndPublish`, `info['pluralName']` (absent for
components) and the attribute map (as its entry list). -/
structure StrapiSourceModel where
  uid : Str
  apiID : Str
  draftAndPublish : Bool
  pluralName : Option Str
  attributes : List (Str × StrapiAttribute)

/-- A per-content-type settings record; `mainField` embeds the optional chain
`contentTypeSetting?.settings?.mainField`. -/
structure StrapiContentTypeSetting where
  uid : Str
  mainField : Option Str

/-! ## Normalized (Stackbit) schema -/

/-- The full `@stackbit/types` field-type vocabulary consumed by the
document mapper and the update mapper. -/
inductive FieldType where
  | string
  | url
  | slug
  | text
  | markdown
  | html
  | boolean
  | date
  | datetime
  | color
  | number
  | enum
  | file
  | json
  | style
  | richText
  | image
  | reference
  | list
  | model
  | object
  | crossReference
deriving DecidableEq

/-- The `items` sub-shape of a `list`-typed field. -/
structure FieldItems where
  type : FieldType
  models : List Str := []

/-- A normalized model field. The TypeScript `Field` union is flattened into
one record; only the components read for the given `type` are meaningful.
`type` is an `Option` because the TypeScript lookup `typeMapping[tag]` can
evaluate to `undefined` (see `typeMapping` below). -/
structure Field where
  type : Option FieldType
  name : Str
  required : Bool := false
  default : JValue := JValue.undefined
  models : List Str := []
  items : FieldItems := { type := FieldType.string }

/-- What the per-attribute classifier of `toStackbitModels` actually returns:
a proper field, or — in the `default` branch, whose `never`-typed
exhaustiveness check `return _exhaustiveCheck` returns at runtime — the raw
attribute object itself. -/
inductive ModelField where
  | f (fld : Field)
  | rawAttr (a : StrapiAttribute)

/-- Normalized model type: content types (uid prefixed `api::`) become
`data`, everything else `object`. -/
inductive ModelType where
  | data
  | object
deriving DecidableEq

/-- The model context `StrapiModelContext`. -/
structure ModelContext where
  draftAndPublish : Bool
  apiEndpoint : Option Str

/-- A normalized Stackbit model as built by `toStackbitModels`. -/
structure Model where
  type : ModelType
  name : Str
  context : ModelContext
  labelField : Option Str
  fields : List ModelField

/-! ## SchemaMapper (`toStackbitModels`) -/

/-- The fixed scalar lookup table `typeMapping` (lines 39 to 51 of
`strapi-source-utils.ts`). Its keys are `boolean`, `integer`, `string`,
`richtext`, `text`, `datetime`, `json` and `enumeration`; there is no
`float` key, so the lookup `typeMapping['float']` is `undefined` (`none`). -/
def typeMapping : ScalarAttrType → Option FieldType
  | .boolean => some .boolean
  | .integer => some .number
  | .string => some .string
  | .richtext => some .text
  | .text => some .text
  | .datetime => some .datetime
  | .json => some .json
  | .enumeration => some .string
  | .float => none

/-- The expression `target.split` at the dot, index 1: second dot-separated segment of a namespaced
relation target such as `api::tag.tag`. (On a target with no dot the
original code would throw while normalizing `undefined`; every namespaced
target in scope contains a dot.) -/
def targetLocalName (target : Str) : Str :=
  ((splitSep '.' target).get? 1).getD []

/-- Strip everything up to the last dot: the greedy replace of the
leading-dotted-segment regex with the empty string, applied to a component
uid such as `shared.seo`. -/
def componentLocalName (component : Str) : Str :=
  (splitSep '.' component).getLastD []

/-- The per-attribute classifier inside `toStackbitModels` (the `switch` on
`attribute.type`, lines 67 to 124): scalar tags go through `typeMapping`
with `required` and `default` passed along, relations become references or
lists of references by cardinality, components become models or lists of
models by repeatability, `media` becomes `file`, and any other tag logs a
diagnostic and — via `return _exhaustiveCheck` — yields the raw attribute
itself as the list entry (the attribute is not dropped: `Array.map` returns
one entry per input). -/
def classifyAttribute (attributeName : Str) (attr : StrapiAttribute) : ModelField :=
  match attr with
  | .scalar t required default =>
      .f { type := typeMapping t, name := attributeName,
           required := required.getD false, default := default }
  | .relation rel target =>
      if rel = "oneToMany".toList ∨ rel = "manyToMany".toList then
        .f { type := some .list, name := attributeName,
             items := { type := FieldType.reference,
                        models := [normalizeName (targetLocalName target)] } }
      else
        .f { type := some .reference, name := attributeName,
             models := [normalizeName (targetLocalName target)] }
  | .component comp repeatable =>
      if repeatable then
        .f { type := some .list, name := attributeName,
             items := { type := FieldType.model,
                        models := [normalizeName (componentLocalName comp)] } }
      else
        .f { type := some .model, name := attributeName,
             models := [normalizeName (componentLocalName comp)] }
  | .media =>
      .f { type := some .file, name := attributeName }
  | .other t =>
      .rawAttr (.other t)

/-- The schema mapper `toStackbitModels` (lines 54 to 128): map every source model to a
normalized model — `data` for `api::`-prefixed uids, name normalized from
the `apiID`, context from `options.draftAndPublish` and `info.pluralName`,
`labelField` from the settings entry with the same uid, and one classified
field per attribute. -/
def toStackbitModels (models : List StrapiSourceModel)
    (contentTypeSettings : List StrapiContentTypeSetting) : List Model :=
  models.map fun model =>
    let contentTypeSetting := contentTypeSettings.find? (fun cts => cts.uid = model.uid)
    { type := if ("api::".toList).isPrefixOf model.uid then .data else .object,
      name := normalizeName model.apiID,
      context := { draftAndPublish := model.draftAndPublish,
                   apiEndpoint := model.pluralName },
      labelField := contentTypeSetting.bind StrapiContentTypeSetting.mainField,
      fields := model.attributes.map (fun p => classifyAttribute p.1 p.2) }

/-! ## Host cache and documents -/

/-- The host platform's model cache (external `@stackbit/types` collaborator).
Modelled from the spec: an in-memory model store keyed by the normalized
model name, exposing `getModelByName(name) -> Normalized Model | undefined`. -/
structure SbCache where
  models : List Model

/-- The lookup `stackbitCache.getModelByName`: look the model up by its normalized name. -/
def getModelByName (cache : SbCache) (name : Str) : Option Model :=
  cache.models.find? (fun m => m.name = name)

/-- The search `model.fields?.find((field) => field.name === attributeName)`. A raw
attribute sitting in the field list (the classifier's `default` branch) has
no `name` property, and `undefined === attributeName` is false, so it can
never be found. -/
def findField (fields : List ModelField) (attributeName : Str) : Option Field :=
  fields.findSome? fun mf =>
    match mf with
    | .f fld => if fld.name = attributeName then some fld else none
    | .rawAttr _ => none

/-- A source document as consumed by `toStackbitDocuments`: source id
(rendered to its string form), the model's `apiID` in `type`, and the raw
attribute map (which also carries the system keys `createdAt`, `updatedAt`
and `publishedAt`). -/
structure StrapiDocument where
  id : Str
  type : Str
  attributes : List (Str × JValue)

/-- The two document statuses produced by the mapper. -/
inductive DocStatus where
  | published
  | added
deriving DecidableEq

/-- A normalized document field value (`DocumentField`), covering every
shape built by `toDocumentField` and `toDocumentListFieldItems`:
* `value`: the scalar passthrough object with the model field's type tag;
* `assetReference` and `documentReference`: the two reference shapes;
* `listItems` (with `localized: false`) and `modelFields`;
* `rawField`: what the `default` branch of `toDocumentField` — the
  `never`-typed check `return _exhaustiveCheck` — returns at runtime,
  namely the model field object itself. -/
inductive DocumentField where
  | value (type : Option FieldType) (value : JValue)
  | assetReference (refId : JValue)
  | documentReference (refId : Str)
  | listItems (items : List DocumentField)
  | modelFields (modelName : Str) (fields : List (Str × DocumentField))
  | rawField (fld : Field)

/-- The `Record<string, DocumentField>` accumulated by `toFields`. -/
abbrev FieldsRec := List (Str × DocumentField)

/-- JavaScript object assignment `r[k] = v`: overwrite in place when the key
exists, append otherwise. -/
def recInsert {β : Type} : List (Str × β) → Str → β → List (Str × β)
  | [], k, v => [(k, v)]
  | (k', v') :: rest, k, v =>
      if k' = k then (k, v) :: rest else (k', v') :: recInsert rest k v

/-- JavaScript object read `r[k]` returning `undefined` (`none`) for a
missing key. -/
def recLookup {β : Type} : List (Str × β) → Str → Option β
  | [], _ => none
  | (k', v) :: rest, k => if k' = k then some v else recLookup rest k

/-- Property read on a document attribute map (missing key reads as
`undefined`). -/
def jRecGet (r : List (Str × JValue)) (k : Str) : JValue :=
  (recLookup r k).getD .undefined

/-- Embedding of `Array.prototype.map` with a fallible body: a thrown exception aborts the
whole traversal. -/
def mapJS {α β : Type} (f : α → Except String β) : List α → Except String (List β)
  | [] => .ok []
  | x :: xs =>
    match f x with
    | .error e => .error e
    | .ok b =>
      match mapJS f xs with
      | .error e => .error e
      | .ok bs => .ok (b :: bs)

/-! ## DocumentMapper (`toFields`, `toDocumentField`,
`toDocumentListFieldItems`) -/

/-- The element mapper of the `reference` arm of `toDocumentListFieldItems`:
for each element of `attributeValue.data`, build
`` `${stackbitCache.getModelByName(fieldSpecificProps.models[0])!.name}${ID_SEPARATOR}${v.id}` ``.
A missing `models[0]` or a failed lookup makes the non-null-asserted `.name`
read throw. -/
def listRefItemsGo (cache : SbCache) (models : List Str) :
    List JValue → Except String (List DocumentField)
  | [] => .ok []
  | v :: vs =>
    match models with
    | [] => .error "TypeError: cannot read properties of undefined (reading name)"
    | modelName :: _ =>
      match getModelByName cache modelName with
      | none => .error "TypeError: cannot read properties of undefined (reading name)"
      | some m =>
        match jGetE v ("id".toList) with
        | .error e => .error e
        | .ok idv =>
          match listRefItemsGo cache models vs with
          | .error e => .error e
          | .ok rest =>
            .ok (.documentReference (m.name ++ [idSeparator] ++ jToStr idv) :: rest)

mutual

/-- The `reduce` loop of `toFields` over the already-null-filtered entry
list: per entry, find the model field of the same name, convert, and insert
the converted value under the attribute name when it is defined. When the
model is `undefined` (a failed cache lookup upstream), the first processed
entry throws on `model.fields`. -/
def toFieldsGo : Nat → SbCache → Option Model → FieldsRec →
    List (Str × JValue) → Except String FieldsRec
  | 0, _, _, _, _ => .error "recursion limit exceeded"
  | _+1, _, _, acc, [] => .ok acc
  | fuel+1, cache, model?, acc, (attributeName, attributeValue) :: rest =>
    match model? with
    | none => .error "TypeError: cannot read properties of undefined (reading fields)"
    | some model =>
      match toDocumentField fuel cache (findField model.fields attributeName) attributeValue with
      | .error e => .error e
      | .ok odf =>
        toFieldsGo fuel cache model?
          (match odf with
           | some df => recInsert acc attributeName df
           | none => acc) rest

/-- The call `toFields(attributeValue, model)` where the attributes arrive as an
arbitrary runtime value (the recursive call sites): take `Object.entries`,
drop entries whose value is strictly `null`, and run the reduce loop. -/
def toFieldsOfValue : Nat → SbCache → JValue → Option Model → Except String FieldsRec
  | 0, _, _, _ => .error "recursion limit exceeded"
  | fuel+1, cache, v, model? =>
    match jEntries v with
    | .error e => .error e
    | .ok entries =>
        toFieldsGo fuel cache model? [] (entries.filter (fun p => !jIsNull p.2))

/-- The converter `toDocumentField(modelField, attributeValue)` (lines 169 to 235):
* missing model field: `undefined` (the attribute is skipped silently);
* the sixteen value-carrying types: `{type, value}` passthrough;
* `image`: an asset reference when the value is truthy, else skipped;
* `reference`: when `attributeValue && attributeValue.data` is truthy, a
  document reference whose id is `` `${modelField.name}${ID_SEPARATOR}${attributeValue.data.id}` ``
  — built from the field's declared name; otherwise skipped;
* `list`: delegate to `toDocumentListFieldItems`;
* `model`: look up `models[0]` in the cache and recurse into `toFields`;
* `object` and `cross-reference`: `throw new Error(...)`;
* an `undefined` type tag (the `typeMapping` gap): the `default` branch's
  `return _exhaustiveCheck` yields the model field object itself. -/
def toDocumentField : Nat → SbCache → Option Field → JValue →
    Except String (Option DocumentField)
  | 0, _, _, _ => .error "recursion limit exceeded"
  | fuel+1, cache, modelField?, attributeValue =>
    match modelField? with
    | none => .ok none
    | some modelField =>
      match modelField.type with
      | some .string | some .url | some .slug | some .text | some .markdown
      | some .html | some .boolean | some .date | some .datetime | some .color
      | some .number | some .enum | some .file | some .json | some .style
      | some .richText =>
          .ok (some (.value modelField.type attributeValue))
      | some .image =>
          .ok (if jTruthy attributeValue then some (.assetReference attributeValue) else none)
      | some .reference =>
          if jTruthy attributeValue && jTruthy (jGetD attributeValue ("data".toList)) then
            .ok (some (.documentReference
              (modelField.name ++ [idSeparator] ++
                jToStr (jGetD (jGetD attributeValue ("data".toList)) ("id".toList)))))
          else
            .ok none
      | some .list =>
          match toDocumentListFieldItems fuel cache modelField.items attributeValue with
          | .error e => .error e
          | .ok items => .ok (some (.listItems items))
      | some .model =>
          let modelName := modelField.models.headD []
          match toFieldsOfValue fuel cache attributeValue (getModelByName cache modelName) with
          | .error e => .error e
          | .ok fs => .ok (some (.modelFields modelName fs))
      | some .object => .error "field of type object not implemented"
      | some .crossReference => .error "field of type cross-reference not implemented"
      | none => .ok (some (.rawField modelField))

/-- The list-item mapper `toDocumentListFieldItems(fieldSpecificProps, attributeValue)`
(lines 237 to 293): `model` items map each array element through `toFields`
against the looked-up component model; `reference` items map each element of
`attributeValue.data` through the composite-id builder (see
`listRefItemsGo`); every other item type logs `Unhandled type` and returns
the empty list. -/
def toDocumentListFieldItems : Nat → SbCache → FieldItems → JValue →
    Except String (List DocumentField)
  | 0, _, _, _ => .error "recursion limit exceeded"
  | fuel+1, cache, fieldSpecificProps, attributeValue =>
    match fieldSpecificProps.type with
    | .model =>
        match attributeValue with
        | .arr elems => listModelItemsGo fuel cache (fieldSpecificProps.models.headD []) elems
        | _ => .error "TypeError: attributeValue.map is not a function"
    | .reference =>
        match jGetE attributeValue ("data".toList) with
        | .error e => .error e
        | .ok data =>
          match data with
          | .arr elems => listRefItemsGo cache fieldSpecificProps.models elems
          | _ => .error "TypeError: attributeValue.data.map is not a function"
    | _ => .ok []

/-- The element mapper of the `model` arm of `toDocumentListFieldItems`:
each element becomes `{type: 'model', localized: false, modelName, fields}`
with `fields` mapped recursively against the looked-up component model. -/
def listModelItemsGo : Nat → SbCache → Str → List JValue →
    Except String (List DocumentField)
  | 0, _, _, _ => .error "recursion limit exceeded"
  | _+1, _, _, [] => .ok []
  | fuel+1, cache, modelName, v :: vs =>
    match toFieldsOfValue fuel cache v (getModelByName cache modelName) with
    | .error e => .error e
    | .ok fs =>
      match listModelItemsGo fuel cache modelName vs with
      | .error e => .error e
      | .ok rest => .ok (.modelFields modelName fs :: rest)

end

/-- The field joiner `toFields(documentAttributes, model)` (lines 156 to 167) at the document
top level, where the attributes object is already an entry map: drop entries
whose value is strictly `null` (so `undefined` values pass), then reduce. -/
def toFields (fuel : Nat) (cache : SbCache) (documentAttributes : List (Str × JValue))
    (model? : Option Model) : Except String FieldsRec :=
  toFieldsGo fuel cache model? [] (documentAttributes.filter (fun p => !jIsNull p.2))

/-! ## DocumentMapper (`toStackbitDocuments`) -/

/-- A normalized Stackbit document (constant parts such as
`type: 'document'` and the empty context omitted). -/
structure SbDocument where
  id : Str
  modelName : Str
  status : DocStatus
  manageUrl : Str
  createdAt : JValue
  updatedAt : JValue
  fields : FieldsRec

/-- The per-document body of `toStackbitDocuments` (lines 134 to 151):
normalize the `type` into the model name, look the model up in the cache —
a failed lookup makes `model.context` throw a `TypeError`, aborting the
whole batch — then build the composite id, the status
(`model.context?.draftAndPublish ? (publishedAt ? 'published' : 'added') : 'published'`,
a truthiness test on the publish timestamp), the manage url and the field
map. -/
def toStackbitDocument (fuel : Nat) (cache : SbCache) (manageUrl : Str)
    (document : StrapiDocument) : Except String SbDocument :=
  let modelName := normalizeName document.type
  match getModelByName cache modelName with
  | none => .error "TypeError: cannot read properties of undefined (reading context)"
  | some model =>
    match toFields fuel cache document.attributes (some model) with
    | .error e => .error e
    | .ok fields =>
      .ok { id := encodeDocumentId (normalizeName document.type) document.id,
            modelName := modelName,
            status :=
              if model.context.draftAndPublish then
                if jTruthy (jRecGet document.attributes ("publishedAt".toList)) then
                  .published
                else
                  .added
              else
                .published,
            manageUrl := manageUrl ++ "/collectionType/api::".toList ++ document.type
              ++ ['.'] ++ document.type ++ ['/'] ++ document.id,
            createdAt := jRecGet document.attributes ("createdAt".toList),
            updatedAt := jRecGet document.attributes ("updatedAt".toList),
            fields := fields }

/-- The batch mapper `toStackbitDocuments(documents, manageUrl)`: `documents.map(...)`; an
exception thrown while mapping any document propagates out of `map` and
aborts the whole call. -/
def toStackbitDocuments (fuel : Nat) (cache : SbCache) (documents : List StrapiDocument)
    (manageUrl : Str) : Except String (List SbDocument) :=
  mapJS (toStackbitDocument fuel cache manageUrl) documents

/-! ## ReverseFieldMapper (`stackbitUpdatesToStrapiFields`) -/

/-- A host-issued update-operation field, flattened: `value` is read for the
value-carrying types and `refId` for references. -/
structure UpdateOperationField where
  type : FieldType
  value : JValue := JValue.undefined
  refId : JValue := JValue.undefined

/-- An edit operation. The source's `unset` carries the model's declared
field for the path; only `modelField.type` is consulted, and the host never
supplies a field with an `undefined` type, so the embedding carries the type
tag alone. Operation types other than `set`/`unset` are `other`. -/
inductive UpdateOperation where
  | set (fieldPath : List Str) (field : UpdateOperationField)
  | unset (fieldPath : List Str) (modelFieldType : FieldType)
  | other (opType : Str)

/-- The write payload: a JavaScript object, in which a key set to
`undefined` is present (unlike a key never assigned). -/
abbrev Payload := List (Str × JValue)

/-- The value extractor `convertUpdateOperationFieldToStrapiDocumentField` (lines 376 to 407):
value passthrough for the sixteen value-carrying types, `refId` for
references, `throw` for `image`, `object`, `model`, `cross-reference` and
`list`. -/
def convertUpdateOperationFieldToStrapiDocumentField
    (updateOperationField : UpdateOperationField) : Except String JValue :=
  match updateOperationField.type with
  | .string | .url | .slug | .text | .markdown | .html | .boolean | .date
  | .datetime | .color | .number | .enum | .file | .json | .style | .richText =>
      .ok updateOperationField.value
  | .reference => .ok updateOperationField.refId
  | .image | .object | .model | .crossReference | .list =>
      .error "updating field of type (composite) not implemented"

/-- One iteration of the `for` loop of `stackbitUpdatesToStrapiFields`
(lines 333 to 372). `set` stores the converted value under `fieldPath[0]`;
`unset` stores `undefined` under `fieldPath[0]` for the sixteen
value-carrying types plus `image` and `reference`, and throws for `object`,
`model`, `cross-reference` and `list`; any other operation type throws.
(`fieldPath[0]` of an empty path is `undefined`, which JavaScript coerces to
the property key `"undefined"`.) -/
def applyUpdateOperation (fields : Payload) (operation : UpdateOperation) :
    Except String Payload :=
  match operation with
  | .set fieldPath field =>
      match convertUpdateOperationFieldToStrapiDocumentField field with
      | .error e => .error e
      | .ok v => .ok (recInsert fields (fieldPath.headD ("undefined".toList)) v)
  | .unset fieldPath t =>
      match t with
      | .string | .url | .slug | .text | .markdown | .html | .boolean | .date
      | .datetime | .color | .number | .enum | .file | .json | .style
      | .richText | .image | .reference =>
          .ok (recInsert fields (fieldPath.headD ("undefined".toList)) JValue.undefined)
      | .object | .model | .crossReference | .list =>
          .error "updating field of type (composite) not implemented"
  | .other _ => .error "operation not implemented"

/-- The `for` loop of `stackbitUpdatesToStrapiFields` over the mutable
`fields` object. -/
def updatesGo (fields : Payload) : List UpdateOperation → Except String Payload
  | [] => .ok fields
  | operation :: rest =>
    match applyUpdateOperation fields operation with
    | .error e => .error e
    | .ok fields' => updatesGo fields' rest

/-- The entry point `stackbitUpdatesToStrapiFields(updateOperations)`: fold the operations
over the initially empty payload. -/
def stackbitUpdatesToStrapiFields (updateOperations : List UpdateOperation) :
    Except String Payload :=
  updatesGo [] updateOperations



/-! # Supporting lemmas -/

/-- Splitting a string that does not contain the separator yields that
string alone. -/
theorem splitSep_eq_of_not_mem (sep : Char) (s : Str) (h : sep ∉ s) :
    splitSep sep s = [s] := by
  induction s with
  | nil => rfl
  | cons c cs ih =>
      have hc : ¬ c = sep := fun e => h (e ▸ List.mem_cons_self c cs)
      have hcs : sep ∉ cs := fun m => h (List.mem_cons_of_mem c m)
      simp [splitSep, hc, ih hcs]

/-- Splitting past a first segment that does not contain the separator
peels that segment off. -/
theorem splitSep_append (sep : Char) (m rest : Str) (h : sep ∉ m) :
    splitSep sep (m ++ sep :: rest) = m :: splitSep sep rest := by
  induction m with
  | nil => simp [splitSep]
  | cons c cs ih =>
      have hc : ¬ c = sep := fun e => h (e ▸ List.mem_cons_self c cs)
      have hcs : sep ∉ cs := fun m' => h (List.mem_cons_of_mem c m')
      simp [splitSep, hc, ih hcs]

/-- The character-level normalization map is injective away from
underscores. -/
theorem normChar_inj (c₁ c₂ : Char) (h₁ : c₁ ≠ '_') (h₂ : c₂ ≠ '_')
    (h : (if c₁ = '-' then '_' else c₁) = (if c₂ = '-' then '_' else c₂)) :
    c₁ = c₂ := by
  by_cases e₁ : c₁ = '-' <;> by_cases e₂ : c₂ = '-'
  · rw [e₁, e₂]
  · rw [if_pos e₁, if_neg e₂] at h; exact absurd h.symm h₂
  · rw [if_neg e₁, if_pos e₂] at h; exact absurd h h₁
  · rwa [if_neg e₁, if_neg e₂] at h

/-- Hyphen-to-underscore normalization is injective on strings containing
no underscore. -/
theorem normalizeName_inj : ∀ (a b : Str), '_' ∉ a → '_' ∉ b →
    normalizeName a = normalizeName b → a = b
  | [], [], _, _, _ => rfl
  | [], _ :: _, _, _, h => by simp [normalizeName] at h
  | _ :: _, [], _, _, h => by simp [normalizeName] at h
  | c :: cs, d :: ds, ha, hb, h => by
      simp only [normalizeName, List.map_cons, List.cons.injEq] at h
      have hc : c ≠ '_' := fun e => ha (e ▸ List.mem_cons_self c cs)
      have hd : d ≠ '_' := fun e => hb (e ▸ List.mem_cons_self d ds)
      have hcs : '_' ∉ cs := fun m => ha (List.mem_cons_of_mem c m)
      have hds : '_' ∉ ds := fun m => hb (List.mem_cons_of_mem d m)
      exact List.cons_eq_cons.mpr
        ⟨normChar_inj c d hc hd h.1, normalizeName_inj cs ds hcs hds h.2⟩

/-- A map traversal that returned normally evaluated its body normally on
every element. -/
theorem mapJS_ok_mem {α β : Type} (f : α → Except String β) :
    ∀ (l : List α) (r : List β), mapJS f l = .ok r → ∀ a ∈ l, ∃ b, f a = .ok b
  | [], _, _, a, ha => absurd ha (List.not_mem_nil a)
  | x :: xs, r, hok, a, ha => by
      simp only [mapJS] at hok
      cases hx : f x with
      | error e => rw [hx] at hok; cases hok
      | ok b =>
          rw [hx] at hok
          cases hxs : mapJS f xs with
          | error e => rw [hxs] at hok; cases hok
          | ok bs =>
              rcases List.mem_cons.mp ha with h | h
              · exact ⟨b, h ▸ hx⟩
              · exact mapJS_ok_mem f xs bs hxs a h

/-- Inserting under a key makes that key read back the inserted value. -/
theorem recLookup_recInsert_self {β : Type} (r : List (Str × β)) (k : Str) (v : β) :
    recLookup (recInsert r k v) k = some v := by
  induction r with
  | nil => simp [recInsert, recLookup]
  | cons p rest ih =>
      by_cases h : p.1 = k <;> simp [recInsert, recLookup, h, ih]

/-- Inserting under one key does not change the read of another. -/
theorem recLookup_recInsert_ne {β : Type} (r : List (Str × β)) (k k' : Str) (v : β)
    (h : k' ≠ k) : recLookup (recInsert r k' v) k = recLookup r k := by
  induction r with
  | nil => simp [recInsert, recLookup, h]
  | cons p rest ih =>
      by_cases hp : p.1 = k'
      · simp [recInsert, recLookup, hp, h, ih]
      · by_cases hk : p.1 = k <;>
          simp [recInsert, recLookup, hp, hk, Ne.symm h, ih]

/-- In an entry list with no duplicate keys, a key determines its value. -/
theorem nodupKeys_value_unique {β : Type} (l : List (Str × β))
    (h : (l.map Prod.fst).Nodup) (a : Str) (v w : β)
    (hv : (a, v) ∈ l) (hw : (a, w) ∈ l) : v = w := by
  induction l with
  | nil => cases hv
  | cons p rest ih =>
      simp only [List.map_cons, List.nodup_cons] at h
      rcases List.mem_cons.mp hv with hv' | hv' <;>
        rcases List.mem_cons.mp hw with hw' | hw'
      · rw [← hv'] at hw'; exact (Prod.mk.injEq _ _ _ _ ▸ hw').2.symm ▸ rfl
      · exact absurd (List.mem_map_of_mem Prod.fst hw')
          (by rw [← hv'] at h; exact fun m => h.1 m)
      · exact absurd (List.mem_map_of_mem Prod.fst hv')
          (by rw [← hw'] at h; exact fun m => h.1 m)
      · exact ih h.2 hv' hw'

/-- A reduce run over entries none of which carries the key `a` leaves the
read of `a` unchanged. -/
theorem toFieldsGo_lookup_preserved (cache : SbCache) (model : Model) (a : Str) :
    ∀ (fuel : Nat) (l : List (Str × JValue)) (acc r : FieldsRec),
      toFieldsGo fuel cache (some model) acc l = .ok r →
      a ∉ l.map Prod.fst → recLookup r a = recLookup acc a
  | 0, l, acc, r, hok, _ => by simp [toFieldsGo] at hok
  | _+1, [], acc, r, hok, _ => by
      simp only [toFieldsGo] at hok
      injection hok with h
      rw [h]
  | fuel+1, (n, v) :: rest, acc, r, hok, ha => by
      simp only [List.map_cons, List.mem_cons, not_or] at ha
      obtain ⟨han, ha'⟩ := ha
      have hna : n ≠ a := fun e => han e.symm
      cases hdf : toDocumentField fuel cache (findField model.fields n) v with
      | error e => simp [toFieldsGo, hdf] at hok
      | ok odf =>
          cases odf with
          | none =>
              simp only [toFieldsGo, hdf] at hok
              exact toFieldsGo_lookup_preserved cache model a fuel rest acc r hok ha'
          | some df =>
              simp only [toFieldsGo, hdf] at hok
              rw [toFieldsGo_lookup_preserved cache model a fuel rest _ r hok ha',
                  recLookup_recInsert_ne acc a n df hna]

/-- If no entry of the list can ever make the per-attribute converter
produce a defined document field for key `a`, the reduce never creates an
entry under `a`. -/
theorem toFieldsGo_lookup_none (cache : SbCache) (model : Model) (a : Str) :
    ∀ (fuel : Nat) (l : List (Str × JValue)) (acc r : FieldsRec),
      toFieldsGo fuel cache (some model) acc l = .ok r →
      recLookup acc a = none →
      (∀ g v d, (a, v) ∈ l →
        toDocumentField g cache (findField model.fields a) v ≠ .ok (some d)) →
      recLookup r a = none
  | 0, l, acc, r, hok, _, _ => by simp [toFieldsGo] at hok
  | _+1, [], acc, r, hok, hacc, _ => by
      simp only [toFieldsGo] at hok
      injection hok with h
      rw [h] at hacc
      exact hacc
  | fuel+1, (n, v) :: rest, acc, r, hok, hacc, hnone => by
      have hrest : ∀ g v' d, (a, v') ∈ rest →
          toDocumentField g cache (findField model.fields a) v' ≠ .ok (some d) :=
        fun g v' d m => hnone g v' d (List.mem_cons_of_mem _ m)
      cases hdf : toDocumentField fuel cache (findField model.fields n) v with
      | error e => simp [toFieldsGo, hdf] at hok
      | ok odf =>
          cases odf with
          | none =>
              simp only [toFieldsGo, hdf] at hok
              exact toFieldsGo_lookup_none cache model a fuel rest acc r hok hacc hrest
          | some df =>
              simp only [toFieldsGo, hdf] at hok
              have hna : n ≠ a := by
                intro e
                exact hnone fuel v df (e ▸ List.mem_cons_self _ _) (e ▸ hdf)
              refine toFieldsGo_lookup_none cache model a fuel rest _ r hok ?_ hrest
              rw [recLookup_recInsert_ne acc a n df hna]
              exact hacc

/-- If the list carries `a` exactly once (no duplicate keys), with a value
the per-attribute converter maps to the defined document field `d`, the
reduce ends with `a` reading back `d`. -/
theorem toFieldsGo_lookup_found (cache : SbCache) (model : Model) (a : Str)
    (v : JValue) (d : DocumentField)
    (hdoc : ∀ g, toDocumentField (g+1) cache (findField model.fields a) v = .ok (some d)) :
    ∀ (fuel : Nat) (l : List (Str × JValue)) (acc r : FieldsRec),
      toFieldsGo fuel cache (some model) acc l = .ok r →
      (l.map Prod.fst).Nodup →
      (a, v) ∈ l →
      recLookup r a = some d
  | 0, l, acc, r, hok, _, _ => by simp [toFieldsGo] at hok
  | _+1, [], acc, r, hok, _, hm => absurd hm (List.not_mem_nil (a, v))
  | fuel+1, (n, w) :: rest, acc, r, hok, hnd, hm => by
      simp only [List.map_cons, List.nodup_cons] at hnd
      by_cases hna : n = a
      · have hw : w = v := by
          rcases List.mem_cons.mp hm with h | h
          · exact ((Prod.mk.injEq _ _ _ _).mp h.symm).2
          · exact absurd (hna ▸ List.mem_map_of_mem Prod.fst h) hnd.1
        rw [hna, hw] at hok
        rw [hna] at hnd
        cases fuel with
        | zero => simp [toFieldsGo, toDocumentField] at hok
        | succ g =>
            simp only [toFieldsGo, hdoc g] at hok
            have hrest : a ∉ rest.map Prod.fst := hnd.1
            rw [toFieldsGo_lookup_preserved cache model a (g+1) rest _ r hok hrest,
                recLookup_recInsert_self acc a d]
      · have hm' : (a, v) ∈ rest := by
          rcases List.mem_cons.mp hm with h | h
          · exact absurd ((Prod.mk.injEq _ _ _ _).mp h).1.symm hna
          · exact h
        cases hdf : toDocumentField fuel cache (findField model.fields n) w with
        | error e => simp [toFieldsGo, hdf] at hok
        | ok odf =>
            cases odf with
            | none =>
                simp only [toFieldsGo, hdf] at hok
                exact toFieldsGo_lookup_found cache model a v d hdoc fuel rest acc r hok hnd.2 hm'
            | some df =>
                simp only [toFieldsGo, hdf] at hok
                exact toFieldsGo_lookup_found cache model a v d hdoc fuel rest _ r hok hnd.2 hm'

/-! # Claim theorems -/

/-- Claim C2. For every model name containing no occurrence of the id
separator and every source id not containing the separator, decoding the
composite id produced by encoding returns exactly the pair `(m, id)`:
`encodeDocumentId` is plain delimited concatenation, and on such inputs the
split performed by `decodeDocumentId` finds the single delimiter occurrence
and returns the text on either side. -/
theorem c2_decode_encode_roundtrip (m id : Str)
    (hm : idSeparator ∉ m) (hid : idSeparator ∉ id) :
    decodeDocumentId (encodeDocumentId m id) = (some m, some id) := by
  have he : encodeDocumentId m id = m ++ idSeparator :: id := by
    simp [encodeDocumentId]
  simp only [decodeDocumentId, he, splitSep_append idSeparator m id hm,
    splitSep_eq_of_not_mem idSeparator id hid]
  rfl

/-- Witness for C2 at the concrete pair `("tag", "37")`. -/
theorem c2_decode_encode_roundtrip_witness :
    idSeparator ∉ ("tag".toList) ∧ idSeparator ∉ ("37".toList) ∧
    decodeDocumentId (encodeDocumentId ("tag".toList) ("37".toList))
      = (some ("tag".toList), some ("37".toList)) :=
  ⟨by decide, by decide, c2_decode_encode_roundtrip _ _ (by decide) (by decide)⟩

/-- A content type and a component sharing the bare name `foo`: their uids
are distinct, yet both normalized model names are `foo`. -/
def c9ContentType : StrapiSourceModel :=
  { uid := "api::foo.foo".toList, apiID := "foo".toList,
    draftAndPublish := false, pluralName := some ("foos".toList), attributes := [] }

/-- See `c9ContentType`. -/
def c9Component : StrapiSourceModel :=
  { uid := "shared.foo".toList, apiID := "foo".toList,
    draftAndPublish := false, pluralName := none, attributes := [] }

/-- Claim C9 counterexample. Two source models with distinct uids whose
normalized names coincide: normalization is derived from the `apiID` alone,
and distinct uids do not constrain the `apiID`s, so a content type and a
component with the same bare name collapse to one normalized name. -/
theorem c9_counterexample :
    c9ContentType.uid ≠ c9Component.uid ∧
    ((toStackbitModels [c9ContentType, c9Component] []).map Model.name)
      = ["foo".toList, "foo".toList] :=
  ⟨by decide, rfl⟩

/-- Claim C9 (amended). Hyphen-to-underscore normalization is injective on
`apiID`s containing no underscore: two source models whose `apiID`s are
distinct hyphenated identifiers (no underscores) always receive distinct
normalized names. (Distinct uids alone do not guarantee distinct names —
see the counterexample.) -/
theorem c9_amended_normalization_injective (m₁ m₂ : StrapiSourceModel)
    (settings : List StrapiContentTypeSetting)
    (h₁ : '_' ∉ m₁.apiID) (h₂ : '_' ∉ m₂.apiID) (hne : m₁.apiID ≠ m₂.apiID) :
    ((toStackbitModels [m₁, m₂] settings).map Model.name).Nodup := by
  simp only [toStackbitModels, List.map_cons, List.map_nil, List.nodup_cons,
    List.mem_singleton, List.mem_nil_iff, List.not_mem_nil, List.nodup_nil,
    and_true, not_false_eq_true]
  exact fun h => hne (normalizeName_inj _ _ h₁ h₂ h)

/-- Witness for C9 (amended) at two concrete hyphenated identifiers. -/
theorem c9_amended_witness :
    ((toStackbitModels
      [{ uid := "api::alpha-one.alpha-one".toList, apiID := "alpha-one".toList,
         draftAndPublish := false, pluralName := none, attributes := [] },
       { uid := "api::beta.beta".toList, apiID := "beta".toList,
         draftAndPublish := false, pluralName := none, attributes := [] }] []).map
        Model.name).Nodup :=
  c9_amended_normalization_injective _ _ _ (by decide) (by decide) (by decide)

/-- Claim C3 (code bug). The fixed lookup table `typeMapping` has no `float`
entry, while the scalar `switch` group explicitly routes `float` through
it: a `float` attribute therefore yields a field whose `type` is
`undefined` (`none`), not a defined scalar type tag, although `required`
and `default` do pass through unchanged and all eight other scalar tags map
to defined type tags. -/
theorem c3_typeMapping_float_missing :
    typeMapping .float = none ∧
    classifyAttribute ("price".toList) (.scalar .float (some true) (.num 5))
      = .f { type := none, name := "price".toList, required := true, default := .num 5 } ∧
    classifyAttribute ("title".toList) (.scalar .string (some true) (.str ("d".toList)))
      = .f { type := some .string, name := "title".toList, required := true,
             default := .str ("d".toList) } ∧
    typeMapping .boolean = some .boolean ∧ typeMapping .integer = some .number ∧
    typeMapping .string = some .string ∧ typeMapping .datetime = some .datetime ∧
    typeMapping .json = some .json ∧ typeMapping .text = some .text ∧
    typeMapping .richtext = some .text ∧ typeMapping .enumeration = some .string :=
  ⟨rfl, rfl, rfl, rfl, rfl, rfl, rfl, rfl, rfl, rfl, rfl⟩

/-- A source model with one well-formed attribute and one attribute whose
tag is outside the known vocabulary. -/
def c4UnknownAttrModel : StrapiSourceModel :=
  { uid := "api::page.page".toList, apiID := "page".toList,
    draftAndPublish := true, pluralName := some ("pages".toList),
    attributes := [("title".toList, .scalar .string none .undefined),
                   ("mystery".toList, .other ("uid".toList))] }

/-- Claim C4 counterexample. An unknown-tag attribute is not dropped from the
field list: `Array.map` yields one entry per attribute, and the `default`
branch's `return _exhaustiveCheck` returns the raw attribute itself, which
lands in the mapped model's fields next to the normally mapped ones. -/
theorem c4_counterexample :
    (toStackbitModels [c4UnknownAttrModel] []).map Model.fields
      = [[ModelField.f { type := some .string, name := "title".toList,
                         required := false, default := .undefined },
          ModelField.rawAttr (.other ("uid".toList))]] := rfl

/-- Claim C4 (amended). Classifying an attribute with an unknown tag emits a
diagnostic and does not throw (the classifier is total), and schema mapping
of the rest of the model still succeeds — but the attribute is not dropped:
the mapped model keeps one field entry per source attribute, the
unknown-tag attribute's entry being the raw attribute object returned by
the `default` branch. -/
theorem c4_amended_unknown_attr_kept (sm : StrapiSourceModel)
    (settings : List StrapiContentTypeSetting) (n t : Str)
    (hmem : (n, StrapiAttribute.other t) ∈ sm.attributes) :
    ∃ M, toStackbitModels [sm] settings = [M] ∧
      M.fields.length = sm.attributes.length ∧
      ModelField.rawAttr (.other t) ∈ M.fields := by
  refine ⟨_, rfl, ?_, ?_⟩
  · simp [toStackbitModels]
  · simp only [toStackbitModels, List.map_cons]
    exact List.mem_map.mpr ⟨(n, .other t), hmem, rfl⟩

/-- Witness for C4 (amended) at the concrete two-attribute model. -/
theorem c4_amended_witness :
    ∃ M, toStackbitModels [c4UnknownAttrModel] [] = [M] ∧
      M.fields.length = c4UnknownAttrModel.attributes.length ∧
      ModelField.rawAttr (.other ("uid".toList)) ∈ M.fields :=
  c4_amended_unknown_attr_kept c4UnknownAttrModel [] ("mystery".toList) ("uid".toList)
    (List.mem_cons_of_mem _ (List.mem_cons_self _ _))

/-- A cache holding only the `tag` model, for the C1 batch example. -/
def c1TagModel : Model :=
  { type := .data, name := "tag".toList,
    context := { draftAndPublish := true, apiEndpoint := some ("tags".toList) },
    labelField := none,
    fields := [.f { type := some .string, name := "title".toList }] }

/-- See `c1TagModel`. -/
def c1Cache : SbCache := { models := [c1TagModel] }

/-- A document whose model name is absent from the C1 cache. -/
def c1MissingDoc : StrapiDocument :=
  { id := "1".toList, type := "nope".toList, attributes := [] }

/-- A document whose model is present in the C1 cache. -/
def c1GoodDoc : StrapiDocument :=
  { id := "2".toList, type := "tag".toList,
    attributes := [("title".toList, .str ("x".toList))] }

/-- Claim C1 counterexample. A batch containing one document whose model is
absent from the cache followed by one mappable document: the failed lookup
makes `model.context` throw a `TypeError` inside `documents.map`, so the
whole call fails and the remaining document is not mapped — there is no
per-document `ModelNotFound` error value and the batch is aborted as a
whole. -/
theorem c1_counterexample :
    toStackbitDocuments 5 c1Cache [c1MissingDoc, c1GoodDoc] ("http://u".toList)
      = .error "TypeError: cannot read properties of undefined (reading context)" := rfl

/-- Claim C1 (amended). Documents are not mapped independently: whenever any
document of the batch has a model name absent from the cache,
`toStackbitDocuments` throws (the undefined model lookup is dereferenced),
so the whole batch fails and no mapped documents are returned. -/
theorem c1_amended_batch_aborts (fuel : Nat) (cache : SbCache)
    (documents : List StrapiDocument) (manageUrl : Str) (d : StrapiDocument)
    (hd : d ∈ documents)
    (hmiss : getModelByName cache (normalizeName d.type) = none) :
    ∃ e, toStackbitDocuments fuel cache documents manageUrl = .error e := by
  cases h : toStackbitDocuments fuel cache documents manageUrl with
  | error e => exact ⟨e, rfl⟩
  | ok r =>
      obtain ⟨b, hb⟩ := mapJS_ok_mem _ documents r h d hd
      simp [toStackbitDocument, hmiss] at hb

/-- Witness for C1 (amended) at the concrete two-document batch. -/
theorem c1_amended_witness :
    ∃ e, toStackbitDocuments 5 c1Cache [c1MissingDoc, c1GoodDoc] ("http://u".toList)
      = .error e :=
  c1_amended_batch_aborts 5 c1Cache [c1MissingDoc, c1GoodDoc] ("http://u".toList)
    c1MissingDoc (List.mem_cons_self _ _) rfl

/-- A draft-and-publish model with no fields, for the C5 status example. -/
def c5DraftModel : Model :=
  { type := .data, name := "post".toList,
    context := { draftAndPublish := true, apiEndpoint := none },
    labelField := none, fields := [] }

/-- See `c5DraftModel`. -/
def c5Cache : SbCache := { models := [c5DraftModel] }

/-- A document carrying a non-null but empty-string publish timestamp. -/
def c5EmptyTimestampDoc : StrapiDocument :=
  { id := "9".toList, type := "post".toList,
    attributes := [("publishedAt".toList, .str [])] }

/-- Claim C5 counterexample. The status derivation tests the publish
timestamp for truthiness, not for null: a document of a
`draftAndPublish = true` model whose `publishedAt` is the empty string — a
non-null value — maps to status `added`, where the claim requires
`published` for every non-null timestamp. -/
theorem c5_counterexample :
    jRecGet c5EmptyTimestampDoc.attributes ("publishedAt".toList) = .str [] ∧
    jIsNull (.str []) = false ∧
    (toStackbitDocument 5 c5Cache ("http://u".toList) c5EmptyTimestampDoc).map
        SbDocument.status = .ok .added :=
  ⟨rfl, rfl, rfl⟩

/-- Claim C5 (amended). For every mapped document: if its model's
`draftAndPublish` is false the status is `published` regardless of the
publish timestamp; if `draftAndPublish` is true the status is `added`
exactly when the publish timestamp is falsy — null, absent, or another
falsy value such as the empty string — and `published` whenever the
timestamp is truthy. -/
theorem c5_amended_status (fuel : Nat) (cache : SbCache) (manageUrl : Str)
    (d : StrapiDocument) (M : Model) (doc : SbDocument)
    (hm : getModelByName cache (normalizeName d.type) = some M)
    (hok : toStackbitDocument fuel cache manageUrl d = .ok doc) :
    (M.context.draftAndPublish = false → doc.status = .published) ∧
    (M.context.draftAndPublish = true →
      (doc.status = .added ↔
        jTruthy (jRecGet d.attributes ("publishedAt".toList)) = false)) := by
  simp only [toStackbitDocument, hm] at hok
  cases hf : toFields fuel cache d.attributes (some M) with
  | error e => rw [hf] at hok; cases hok
  | ok fs =>
      rw [hf] at hok
      injection hok with h
      constructor
      · intro hdp
        rw [← h]
        simp [hdp]
      · intro hdp
        rw [← h]
        cases ht : jTruthy (jRecGet d.attributes ("publishedAt".toList)) <;>
          simp [hdp, ht]

/-- The C5 witness model (`draftAndPublish = true`). -/
def c5WitnessModel : Model :=
  { type := .data, name := ['p'],
    context := { draftAndPublish := true, apiEndpoint := none },
    labelField := none, fields := [] }

/-- See `c5WitnessModel`. -/
def c5WitnessCache : SbCache := { models := [c5WitnessModel] }

/-- A document with no publish timestamp at all. -/
def c5WitnessDoc : StrapiDocument := { id := ['1'], type := ['p'], attributes := [] }

/-- The mapped form of `c5WitnessDoc`. -/
def c5WitnessResult : SbDocument :=
  { id := "p#1".toList, modelName := ['p'], status := .added,
    manageUrl := "/collectionType/api::p.p/1".toList,
    createdAt := .undefined, updatedAt := .undefined, fields := [] }

/-- Witness for C5 (amended) at a concrete absent-timestamp document. -/
theorem c5_amended_witness :
    (c5WitnessModel.context.draftAndPublish = false →
      c5WitnessResult.status = .published) ∧
    (c5WitnessModel.context.draftAndPublish = true →
      (c5WitnessResult.status = .added ↔
        jTruthy (jRecGet c5WitnessDoc.attributes ("publishedAt".toList)) = false)) :=
  c5_amended_status 5 c5WitnessCache [] c5WitnessDoc c5WitnessModel c5WitnessResult rfl rfl

/-- Claim C6. Reference-id encoding is asymmetric. For every singular
`reference` field with a wrapped `{data: {id}}` value, the composite ref id
is the field's declared `name` joined to `data.id` by the separator; for a
list of references, each element of `data` gets a ref id built from the
`name` of the model looked up in the cache under the field's `models[0]`. -/
theorem c6_reference_id_asymmetry (fuel : Nat) (cache : SbCache)
    (fieldName modelRef : Str) (M : Model) (req : Bool) (dflt : JValue)
    (mdls : List Str) (it : FieldItems) (idv idv2 : JValue)
    (hM : getModelByName cache modelRef = some M) :
    toDocumentField (fuel+1) cache
        (some { type := some .reference, name := fieldName, required := req,
                default := dflt, models := mdls, items := it })
        (.obj [("data".toList, .obj [("id".toList, idv)])])
      = .ok (some (.documentReference (fieldName ++ [idSeparator] ++ jToStr idv))) ∧
    toDocumentListFieldItems (fuel+1) cache { type := .reference, models := [modelRef] }
        (.obj [("data".toList, .arr [.obj [("id".toList, idv2)]])])
      = .ok [.documentReference (M.name ++ [idSeparator] ++ jToStr idv2)] := by
  constructor
  · rfl
  · simp [toDocumentListFieldItems, listRefItemsGo, jGetE, jGetD, hM]

/-- The C6 witness target model. -/
def c6TagModel : Model :=
  { type := .data, name := "tag".toList,
    context := { draftAndPublish := true, apiEndpoint := none },
    labelField := none, fields := [] }

/-- See `c6TagModel`. -/
def c6Cache : SbCache := { models := [c6TagModel] }

/-- Witness for C6: the singular case yields `author#3` (field name),
the list case yields `tag#7` (target model name). -/
theorem c6_witness :
    toDocumentField 5 c6Cache
        (some { type := some .reference, name := "author".toList, required := false,
                default := .undefined, models := ["tag".toList],
                items := { type := FieldType.string } })
        (.obj [("data".toList, .obj [("id".toList, .num 3)])])
      = .ok (some (.documentReference ("author".toList ++ [idSeparator] ++ jToStr (.num 3)))) ∧
    toDocumentListFieldItems 5 c6Cache { type := .reference, models := ["tag".toList] }
        (.obj [("data".toList, .arr [.obj [("id".toList, .num 7)]])])
      = .ok [.documentReference (c6TagModel.name ++ [idSeparator] ++ jToStr (.num 7))] :=
  c6_reference_id_asymmetry 4 c6Cache ("author".toList) ("tag".toList) c6TagModel
    false .undefined ["tag".toList] { type := FieldType.string } (.num 3) (.num 7) rfl

/-- The sixteen value-carrying field types of `toDocumentField`'s scalar
passthrough group. -/
def isValueFieldType : FieldType → Bool
  | .string | .url | .slug | .text | .markdown | .html | .boolean | .date
  | .datetime | .color | .number | .enum | .file | .json | .style
  | .richText => true
  | _ => false

/-- On a value-carrying field type, `toDocumentField` is the `{type, value}`
passthrough, whatever the attribute value. -/
theorem toDocumentField_value (g : Nat) (cache : SbCache) (fld : Field)
    (v : JValue) (t : FieldType) (htype : fld.type = some t)
    (hval : isValueFieldType t = true) :
    toDocumentField (g+1) cache (some fld) v = .ok (some (.value fld.type v)) := by
  cases t <;> simp [isValueFieldType] at hval <;> simp [toDocumentField, htype]

/-- Claim C7. The mapped field record never contains an entry for an
attribute whose value is strictly `null` (the entry is filtered out before
the join) nor for an attribute name with no matching model field (the
converter returns `undefined` and the insert is skipped); both are silent
skips — in particular a missing model field can never raise an error. -/
theorem c7_null_and_missing_field_skipped (fuel : Nat) (cache : SbCache)
    (attrs : List (Str × JValue)) (model : Model) (a : Str) (r : FieldsRec)
    (hnodup : (attrs.map Prod.fst).Nodup)
    (hok : toFields fuel cache attrs (some model) = .ok r)
    (hcase : (a, JValue.null) ∈ attrs ∨ findField model.fields a = none) :
    recLookup r a = none ∧
    ∀ (g : Nat) (v : JValue), toDocumentField (g+1) cache none v = .ok none := by
  refine ⟨?_, fun g v => rfl⟩
  unfold toFields at hok
  rcases hcase with hnull | hnf
  · refine toFieldsGo_lookup_none cache model a fuel _ [] r hok rfl ?_
    intro g v d hmem hdf
    have hmem' := List.mem_filter.mp hmem
    have hv : v = JValue.null :=
      nodupKeys_value_unique attrs hnodup a v JValue.null hmem'.1 hnull
    rw [hv] at hmem'
    simp [jIsNull] at hmem'
  · refine toFieldsGo_lookup_none cache model a fuel _ [] r hok rfl ?_
    intro g v d _ hdf
    rw [hnf] at hdf
    cases g with
    | zero => simp [toDocumentField] at hdf
    | succ g' => simp [toDocumentField] at hdf

/-- The C7 witness model: a single `string` field named `title`. -/
def c7Model : Model :=
  { type := .data, name := "post".toList,
    context := { draftAndPublish := false, apiEndpoint := none },
    labelField := none,
    fields := [.f { type := some .string, name := "title".toList }] }

/-- See `c7Model`. -/
def c7Cache : SbCache := { models := [c7Model] }

/-- Witness for C7: a document with a null-valued attribute (and another
attribute with no matching model field) maps with neither entry present. -/
theorem c7_witness :
    recLookup [("title".toList, DocumentField.value (some .string) (.str ("x".toList)))]
        ("gone".toList) = none ∧
    ∀ (g : Nat) (v : JValue), toDocumentField (g+1) c7Cache none v = .ok none :=
  c7_null_and_missing_field_skipped 5 c7Cache
    [("title".toList, .str ("x".toList)), ("gone".toList, .null),
     ("alien".toList, .str ("y".toList))]
    c7Model ("gone".toList)
    [("title".toList, DocumentField.value (some .string) (.str ("x".toList)))]
    (by decide) rfl
    (Or.inl (List.mem_cons_of_mem _ (List.mem_cons_self _ _)))

/-- Claim C10. The null drop uses strict comparison: an attribute whose value
is `undefined` (not `null`) passes the `value !== null` filter, and when
its name matches a value-carrying model field the mapped record contains an
entry for it whose value component is `undefined`. -/
theorem c10_undefined_value_kept (fuel : Nat) (cache : SbCache)
    (attrs : List (Str × JValue)) (model : Model) (a : Str) (fld : Field)
    (t : FieldType) (r : FieldsRec)
    (hnodup : (attrs.map Prod.fst).Nodup)
    (hfind : findField model.fields a = some fld)
    (htype : fld.type = some t)
    (hval : isValueFieldType t = true)
    (hmem : (a, JValue.undefined) ∈ attrs)
    (hok : toFields fuel cache attrs (some model) = .ok r) :
    recLookup r a = some (.value (some t) JValue.undefined) := by
  unfold toFields at hok
  have hdoc : ∀ g, toDocumentField (g+1) cache (findField model.fields a) JValue.undefined
      = .ok (some (.value (some t) JValue.undefined)) := by
    intro g
    rw [hfind]
    have h2 := toDocumentField_value g cache fld JValue.undefined t htype hval
    rw [htype] at h2
    exact h2
  have hmem' : (a, JValue.undefined) ∈ attrs.filter (fun p => !jIsNull p.2) :=
    List.mem_filter.mpr ⟨hmem, rfl⟩
  have hnodup' : ((attrs.filter (fun p => !jIsNull p.2)).map Prod.fst).Nodup :=
    List.Nodup.sublist (List.Sublist.map Prod.fst (List.filter_sublist attrs)) hnodup
  exact toFieldsGo_lookup_found cache model a JValue.undefined _ hdoc fuel _ [] r hok
    hnodup' hmem'

/-- The C10 witness model: a single `string` field named `subtitle`. -/
def c10Model : Model :=
  { type := .data, name := ['m'],
    context := { draftAndPublish := false, apiEndpoint := none },
    labelField := none,
    fields := [.f { type := some .string, name := "subtitle".toList }] }

/-- See `c10Model`. -/
def c10Cache : SbCache := { models := [c10Model] }

/-- Witness for C10: an `undefined`-valued attribute matching a `string`
field produces a field entry carrying `undefined`. -/
theorem c10_witness :
    recLookup [("subtitle".toList, DocumentField.value (some .string) JValue.undefined)]
        ("subtitle".toList)
      = some (.value (some FieldType.string) JValue.undefined) :=
  c10_undefined_value_kept 5 c10Cache [("subtitle".toList, .undefined)] c10Model
    ("subtitle".toList) { type := some .string, name := "subtitle".toList }
    .string [("subtitle".toList, DocumentField.value (some .string) JValue.undefined)]
    (by decide) rfl rfl rfl (List.mem_cons_self _ _) rfl

/-- The four field types whose `unset` arm throws. -/
def unsetThrows : FieldType → Bool
  | .object | .model | .crossReference | .list => true
  | _ => false

/-- Claim C8 counterexample. An `unset` on an `image`-typed field — a
composite type, listed among the unsupported composite types — does not
throw: it produces a payload entry with the key present and value
`undefined`, exactly like the scalar types. -/
theorem c8_counterexample :
    stackbitUpdatesToStrapiFields [.unset ["photo".toList] .image]
      = .ok [("photo".toList, JValue.undefined)] := rfl

/-- Claim C8 (amended). In any batch position, an `unset` operation on a
field whose declared type is a scalar, `image` or `reference` type writes
the key `fieldPath[0]` into the payload with value `undefined` (the key is
present, not removed), and an `unset` on `object`, `model`,
`cross-reference` or `list` throws. -/
theorem c8_amended_unset (fields : Payload) (rest : List UpdateOperation)
    (fieldPath : List Str) (t : FieldType) :
    (unsetThrows t = false →
      updatesGo fields (.unset fieldPath t :: rest)
        = updatesGo (recInsert fields (fieldPath.headD ("undefined".toList))
            JValue.undefined) rest ∧
      recLookup (recInsert fields (fieldPath.headD ("undefined".toList)) JValue.undefined)
        (fieldPath.headD ("undefined".toList)) = some JValue.undefined) ∧
    (unsetThrows t = true →
      updatesGo fields (.unset fieldPath t :: rest)
        = .error "updating field of type (composite) not implemented") := by
  constructor
  · intro h
    cases t <;> simp [unsetThrows] at h <;>
      exact ⟨rfl, recLookup_recInsert_self _ _ _⟩
  · intro h
    cases t <;> simp [unsetThrows] at h <;> rfl

/-- Witness for C8 (amended): a scalar `unset` writes the key with
`undefined`; a `list` `unset` throws. -/
theorem c8_amended_witness :
    (updatesGo [] [UpdateOperation.unset ["title".toList] .string]
        = updatesGo (recInsert [] ("title".toList) JValue.undefined) [] ∧
      recLookup (recInsert [] ("title".toList) JValue.undefined) ("title".toList)
        = some JValue.undefined) ∧
    updatesGo [] [UpdateOperation.unset ["sections".toList] .list]
      = .error "updating field of type (composite) not implemented" :=
  ⟨(c8_amended_unset [] [] ["title".toList] .string).1 rfl,
   (c8_amended_unset [] [] ["sections".toList] .list).2 rfl⟩

end StrapiSource
